import Mathlib

/-!
Verification of the constraint interface-and-reification layer of the
Munchkin constraint-programming solver (`src/constraints/mod.rs`).

The file embeds the `Constraint` trait, its blanket implementation for
propagators, the implementation for `Vec<C>`, the placeholder
implementation for `()`, and the `NegatableConstraint` trait with its
derived `reify` method.  The engine pieces the module calls into but that
are outside the source tree (`Solver::add_propagator`, `ReifiedPropagator`,
`Literal`, `ConstraintOperationError`) and the constraint-family semantics
are modelled from the specification; each such definition says so in its
doc comment.
-/

set_option autoImplicit false

namespace Munchkin

variable {P σ α β γ : Type}

/-- Modelled from the spec: a `Literal` (outside `src/`, in
`crate::variables`) is a Boolean proposition with a polarity bit over a
Boolean variable; `!literal` flips the polarity without allocating a new
variable. -/
structure Literal where
  var : Nat
  polarity : Bool
deriving DecidableEq

/-- Embedding of `!reification_literal`: flip the polarity bit. -/
def Literal.negate (l : Literal) : Literal :=
  ⟨l.var, !l.polarity⟩

/-- Modelled from the spec: a complete assignment of the finite-domain
variables (an integer view and a Boolean view, both indexed by variable
identifier). -/
structure Assignment where
  intVal : Nat → Int
  boolVal : Nat → Bool

/-- Truth value of a literal under an assignment: the literal holds when the
Boolean variable's value matches the polarity bit. -/
def Literal.holds (l : Literal) (a : Assignment) : Bool :=
  a.boolVal l.var == l.polarity

/-- Modelled from the spec: the single conflict error value (outside `src/`,
`crate::ConstraintOperationError`) returned when registering a constraint
detects a root-level conflict. -/
inductive ConstraintOperationError where
  | infeasiblePropagator
deriving DecidableEq

/-- Modelled from the spec: a registered propagation unit is either a plain
propagator or a propagator decorated by the reification wrapper
(`ReifiedPropagator`, outside `src/`) with one guard literal. -/
inductive RegisteredUnit (P : Type) where
  | plain (p : P)
  | reified (inner : P) (guard : Literal)
deriving DecidableEq

/-- Modelled from the spec: the engine (`crate::Solver`, outside `src/`)
keeps a registration table of all registered units.  Registering a unit may
immediately detect a root-level conflict; `rootConflict` abstracts that
verdict per unit, returning the error the registration would raise. -/
structure Solver (P : Type) where
  rootConflict : RegisteredUnit P → Option ConstraintOperationError
  units : List (RegisteredUnit P)

/-- Outcome of a Rust method `fn f(&mut self, ...) -> Result<(), E>` in the
state-passing embedding: the method either returns, yielding the final
solver state together with `Ok` (`none`) or `Err e` (`some e`), or it
panics and never returns. -/
inductive Outcome (σ : Type) where
  | ret (s : σ) (e : Option ConstraintOperationError)
  | panic

/-- Modelled from the spec: `Solver::add_propagator` either reports the
root-level conflict its registration check raises (leaving the registration
table unchanged) or appends the unit to the registration table. -/
def Solver.addPropagator (s : Solver P) (u : RegisteredUnit P) : Outcome (Solver P) :=
  match s.rootConflict u with
  | some e => .ret s (some e)
  | none => .ret ⟨s.rootConflict, s.units ++ [u]⟩ none

/-- Modelled from the spec: the relation a registered unit posts, given the
acceptance semantics of the underlying propagators.  A plain unit posts its
propagator's constraint; a reified unit posts `guard → constraint`. -/
def RegisteredUnit.sat (acc : P → Assignment → Bool) : RegisteredUnit P → Assignment → Bool
  | .plain p, a => acc p a
  | .reified p g, a => !g.holds a || acc p a

/-- An assignment satisfies the solver when it satisfies every registered
unit (the conjunction of all posted relations). -/
def Solver.sat (acc : P → Assignment → Bool) (s : Solver P) (a : Assignment) : Bool :=
  s.units.all fun u => u.sat acc a

/-- Embedding of the `Constraint` trait of `src/constraints/mod.rs` as a
dictionary of its two methods.  (`post_test` is `#[cfg(test)]`-only and is
not embedded.) -/
structure Constraint (σ : Type) (α : Type) where
  post : α → σ → Outcome σ
  implied_by : α → σ → Literal → Outcome σ

/-- Embedding of `fn post` of the blanket
`impl<ConcretePropagator: Propagator> Constraint for ConcretePropagator`:
`solver.add_propagator(self)`. -/
def propagatorPost (p : P) (s : Solver P) : Outcome (Solver P) :=
  s.addPropagator (.plain p)

/-- Embedding of `fn implied_by` of the blanket implementation:
`solver.add_propagator(ReifiedPropagator::new(self, reification_literal))`. -/
def propagatorImpliedBy (p : P) (s : Solver P) (r : Literal) : Outcome (Solver P) :=
  s.addPropagator (.reified p r)

/-- The blanket `impl Constraint for ConcretePropagator` as a dictionary. -/
def propagatorConstraint (P : Type) : Constraint (Solver P) P :=
  ⟨propagatorPost, propagatorImpliedBy⟩

/-- Embedding of `fn post` of `impl<C: Constraint> Constraint for Vec<C>`:
`self.into_iter().try_for_each(|c| c.post(solver))`, which stops at the
first element whose posting returns an error. -/
def vecPost (I : Constraint σ α) : List α → σ → Outcome σ
  | [], s => .ret s none
  | c :: cs, s =>
    match I.post c s with
    | .ret s₁ none => vecPost I cs s₁
    | .ret s₁ (some e) => .ret s₁ (some e)
    | .panic => .panic

/-- Embedding of `fn implied_by` of `impl<C: Constraint> Constraint for
Vec<C>`: `self.into_iter().try_for_each(|c| c.implied_by(solver, lit))`,
registering every element under the same reification literal. -/
def vecImpliedBy (I : Constraint σ α) (r : Literal) : List α → σ → Outcome σ
  | [], s => .ret s none
  | c :: cs, s =>
    match I.implied_by c s r with
    | .ret s₁ none => vecImpliedBy I r cs s₁
    | .ret s₁ (some e) => .ret s₁ (some e)
    | .panic => .panic

/-- The `impl<C: Constraint> Constraint for Vec<C>` as a dictionary. -/
def vecConstraint (I : Constraint σ α) : Constraint σ (List α) :=
  ⟨vecPost I, fun cs s r => vecImpliedBy I r cs s⟩

/-- Embedding of `impl Constraint for ()`: both methods are `todo!()`,
which panics at the call site before touching the solver. -/
def unitConstraint (P : Type) : Constraint (Solver P) Unit :=
  ⟨fun _ _ => .panic, fun _ _ _ => .panic⟩

/-- Embedding of the `NegatableConstraint` trait: the constraint's own
`Constraint` implementation, the `Constraint` implementation of the
associated `NegatedConstraint` type, and the pure `negation` method. -/
structure NegatableConstraint (σ α β : Type) where
  toConstraint : Constraint σ α
  negatedConstraint : Constraint σ β
  negation : α → β

/-- Embedding of the derived `fn reify` of `NegatableConstraint`: compute
the negation first, register `self` implied by the reification literal,
propagate a failure with `?`, and otherwise register the negation implied by
the negated literal. -/
def NegatableConstraint.reify (N : NegatableConstraint σ α β) (c : α) (s : σ)
    (r : Literal) : Outcome σ :=
  let n := N.negation c
  match N.toConstraint.implied_by c s r with
  | .ret s₁ none => N.negatedConstraint.implied_by n s₁ r.negate
  | .ret s₁ (some e) => .ret s₁ (some e)
  | .panic => .panic

/-- Embedding of the call site `let negation = self.negation();` inside
`reify`: per its signature, `negation` does not receive the solver, which
passes through untouched alongside the computed value. -/
def negationCall (N : NegatableConstraint σ α β) (c : α) (s : σ) : β × σ :=
  (N.negation c, s)

/-- A propagator-backed negatable constraint: the constraint and its
negation both use the blanket propagator implementation. -/
def propagatorNegatable (negP : P → P) : NegatableConstraint (Solver P) P P :=
  ⟨propagatorConstraint P, propagatorConstraint P, negP⟩

/-- Modelled from the spec: the documented example family of negatable
constraints, `a = b` with negation `a != b` (the concrete constraint
modules `arithmetic`, `boolean`, ... are outside `src/`). -/
inductive EqConstraint where
  | equalsC (x y : Nat)
  | notEqualsC (x y : Nat)
deriving DecidableEq

/-- Acceptance semantics of the example family: `a = b` accepts an
assignment when the two integer values agree, `a != b` when they differ. -/
def EqConstraint.accepts : EqConstraint → Assignment → Bool
  | .equalsC x y, a => a.intVal x == a.intVal y
  | .notEqualsC x y, a => !(a.intVal x == a.intVal y)

/-- Embedding of `fn negation` for the example family: `a = b` maps to
`a != b` and back. -/
def EqConstraint.negation : EqConstraint → EqConstraint
  | .equalsC x y => .notEqualsC x y
  | .notEqualsC x y => .equalsC x y

/-- Negating a literal complements its truth value under every assignment. -/
theorem Literal.holds_negate (l : Literal) (a : Assignment) :
    l.negate.holds a = !(l.holds a) := by
  cases hb : a.boolVal l.var <;> cases hp : l.polarity <;>
    simp [Literal.holds, Literal.negate, hb, hp]

/-- The example family satisfies the exhaustive-complement contract. -/
theorem eqConstraint_complement (c : EqConstraint) (a : Assignment) :
    (EqConstraint.negation c).accepts a = !(c.accepts a) := by
  cases c <;> simp [EqConstraint.accepts, EqConstraint.negation]

/-- Sequencing lemma for `vecPost`: after a successful prefix, posting the
whole sequence continues from the prefix's final state. -/
theorem vecPost_append_ok (I : Constraint σ α) (cs₁ cs₂ : List α) (s s₁ : σ)
    (h : vecPost I cs₁ s = .ret s₁ none) :
    vecPost I (cs₁ ++ cs₂) s = vecPost I cs₂ s₁ := by
  induction cs₁ generalizing s with
  | nil =>
    simp only [vecPost, Outcome.ret.injEq] at h
    rw [List.nil_append, h.1]
  | cons c cs ih =>
    rw [List.cons_append]
    cases hp : I.post c s with
    | ret s₂ e =>
      cases e with
      | none =>
        simp only [vecPost, hp] at h ⊢
        exact ih _ h
      | some e => simp [vecPost, hp] at h
    | panic => simp [vecPost, hp] at h

/-- A successful `vecPost` over the blanket propagator implementation leaves
the conflict verdict unchanged and appends exactly the sequence's plain
units, in order. -/
theorem vecPost_ok_state (cs : List P) (s s₁ : Solver P)
    (h : vecPost (propagatorConstraint P) cs s = .ret s₁ none) :
    s₁.rootConflict = s.rootConflict ∧
      s₁.units = s.units ++ cs.map RegisteredUnit.plain := by
  induction cs generalizing s with
  | nil =>
    simp only [vecPost, Outcome.ret.injEq] at h
    rw [← h.1]
    simp
  | cons c cs ih =>
    cases hc : s.rootConflict (.plain c) with
    | some e =>
      simp [vecPost, propagatorConstraint, propagatorPost, Solver.addPropagator, hc] at h
    | none =>
      simp only [vecPost, propagatorConstraint, propagatorPost,
        Solver.addPropagator, hc] at h
      obtain ⟨h1, h2⟩ := ih _ h
      refine ⟨h1, ?_⟩
      rw [h2]
      simp

/-- The `post` method of the blanket dictionary is the blanket `post`. -/
theorem propagatorConstraint_post (P : Type) :
    (propagatorConstraint P).post = propagatorPost (P := P) := rfl

/-- The `implied_by` method of the blanket dictionary is the blanket
`implied_by`. -/
theorem propagatorConstraint_implied_by (P : Type) :
    (propagatorConstraint P).implied_by = propagatorImpliedBy (P := P) := rfl

/-- If the conflict verdict accepts every plain unit, `vecPost` over the
blanket propagator implementation succeeds and registers the whole sequence
in order. -/
theorem vecPost_all_ok (cs : List P) (s : Solver P)
    (hs : ∀ c, s.rootConflict (.plain c) = none) :
    vecPost (propagatorConstraint P) cs s =
      .ret ⟨s.rootConflict, s.units ++ cs.map RegisteredUnit.plain⟩ none := by
  induction cs generalizing s with
  | nil => simp [vecPost]
  | cons c cs ih =>
    simp only [vecPost, propagatorConstraint_post, propagatorPost,
      Solver.addPropagator, hs c]
    rw [ih ⟨s.rootConflict, s.units ++ [RegisteredUnit.plain c]⟩ (fun q => hs q)]
    simp

/-- Sequencing lemma for `vecImpliedBy`, mirroring `vecPost_append_ok`. -/
theorem vecImpliedBy_append_ok (I : Constraint σ α) (r : Literal)
    (cs₁ cs₂ : List α) (s s₁ : σ)
    (h : vecImpliedBy I r cs₁ s = .ret s₁ none) :
    vecImpliedBy I r (cs₁ ++ cs₂) s = vecImpliedBy I r cs₂ s₁ := by
  induction cs₁ generalizing s with
  | nil =>
    simp only [vecImpliedBy, Outcome.ret.injEq] at h
    rw [List.nil_append, h.1]
  | cons c cs ih =>
    rw [List.cons_append]
    cases hp : I.implied_by c s r with
    | ret s₂ e =>
      cases e with
      | none =>
        simp only [vecImpliedBy, hp] at h ⊢
        exact ih _ h
      | some e => simp [vecImpliedBy, hp] at h
    | panic => simp [vecImpliedBy, hp] at h

/-- A successful `vecImpliedBy` over the blanket propagator implementation
leaves the conflict verdict unchanged and appends exactly the sequence's
units, each wrapped with the same guard, in order. -/
theorem vecImpliedBy_ok_state (cs : List P) (r : Literal) (s s₁ : Solver P)
    (h : vecImpliedBy (propagatorConstraint P) r cs s = .ret s₁ none) :
    s₁.rootConflict = s.rootConflict ∧
      s₁.units = s.units ++ cs.map (fun c => RegisteredUnit.reified c r) := by
  induction cs generalizing s with
  | nil =>
    simp only [vecImpliedBy, Outcome.ret.injEq] at h
    rw [← h.1]
    simp
  | cons c cs ih =>
    cases hc : s.rootConflict (.reified c r) with
    | some e =>
      simp [vecImpliedBy, propagatorConstraint, propagatorImpliedBy,
        Solver.addPropagator, hc] at h
    | none =>
      simp only [vecImpliedBy, propagatorConstraint, propagatorImpliedBy,
        Solver.addPropagator, hc] at h
      obtain ⟨h1, h2⟩ := ih _ h
      refine ⟨h1, ?_⟩
      rw [h2]
      simp

/-- Boolean shape of a full reification: the conjunction of the two posted
halves `guard → c` and `not guard → not c` is the equivalence `guard ↔ c`. -/
theorem reify_halves_eq_iff (x g b : Bool) :
    (x && (!g || b) && (g || !b)) = (x && (g == b)) := by
  cases x <;> cases g <;> cases b <;> rfl

/-- Conflict verdict that accepts every unit. -/
def noConflict (P : Type) : RegisteredUnit P → Option ConstraintOperationError :=
  fun _ => none

/-- Conflict verdict that rejects every unit. -/
def alwaysConflict (P : Type) : RegisteredUnit P → Option ConstraintOperationError :=
  fun _ => some .infeasiblePropagator

/-- C2: for every constraint with a defined negation and every guard
literal, if the first half of `reify` (registering the constraint under the
guard) returns a conflict error, then `reify` returns exactly that error,
with the state exactly as the first half left it: the second half
(registering the negation under the negated guard) is never attempted. -/
theorem reify_first_half_error_short_circuits (N : NegatableConstraint σ α β)
    (c : α) (s s₁ : σ) (e : ConstraintOperationError) (r : Literal)
    (h : N.toConstraint.implied_by c s r = .ret s₁ (some e)) :
    N.reify c s r = .ret s₁ (some e) := by
  simp [NegatableConstraint.reify, h]

/-- Witness for C2: over a solver whose registration check always raises a
conflict, the first half of `reify` fails and `reify` returns that very
error without reaching the second half. -/
theorem reify_first_half_error_short_circuits_witness :
    (propagatorNegatable (fun n => n)).toConstraint.implied_by 0
        (⟨alwaysConflict Nat, []⟩ : Solver Nat) ⟨0, true⟩ =
      .ret ⟨alwaysConflict Nat, []⟩ (some .infeasiblePropagator) ∧
    (propagatorNegatable (fun n => n)).reify 0
        (⟨alwaysConflict Nat, []⟩ : Solver Nat) ⟨0, true⟩ =
      .ret ⟨alwaysConflict Nat, []⟩ (some .infeasiblePropagator) :=
  ⟨rfl, reify_first_half_error_short_circuits (propagatorNegatable (fun n => n)) 0
      ⟨alwaysConflict Nat, []⟩ ⟨alwaysConflict Nat, []⟩
      ConstraintOperationError.infeasiblePropagator ⟨0, true⟩ rfl⟩

/-- C5: for every constraint family whose negation satisfies the
exhaustive-complement contract, the double negation accepts exactly the same
assignments as the original constraint (semantic equivalence; the
representation need not be identical, so the two negation steps may land in
different types). -/
theorem double_negation_semantics
    (f : α → Assignment → Bool) (g : β → Assignment → Bool)
    (k : γ → Assignment → Bool) (n₁ : α → β) (n₂ : β → γ)
    (h₁ : ∀ c a, g (n₁ c) a = !(f c a))
    (h₂ : ∀ c a, k (n₂ c) a = !(g c a))
    (c : α) (a : Assignment) :
    k (n₂ (n₁ c)) a = f c a := by
  rw [h₂, h₁, Bool.not_not]

/-- Witness for C5: the example family's double negation of `0 = 1` agrees
with `0 = 1` on a concrete assignment. -/
theorem double_negation_semantics_witness :
    EqConstraint.accepts
        (EqConstraint.negation (EqConstraint.negation (.equalsC 0 1)))
        ⟨fun _ => 0, fun _ => true⟩ =
      EqConstraint.accepts (.equalsC 0 1) ⟨fun _ => 0, fun _ => true⟩ :=
  double_negation_semantics EqConstraint.accepts EqConstraint.accepts
    EqConstraint.accepts EqConstraint.negation EqConstraint.negation
    eqConstraint_complement eqConstraint_complement (.equalsC 0 1)
    ⟨fun _ => 0, fun _ => true⟩

/-- C6: for the example negatable family, a constraint accepts an assignment
exactly when its negation rejects that assignment: the negation is an
exhaustive logical complement over every possible assignment. -/
theorem eq_negation_exhaustive_complement (c : EqConstraint) (a : Assignment) :
    c.accepts a = true ↔ (EqConstraint.negation c).accepts a = false := by
  rw [eqConstraint_complement]
  cases EqConstraint.accepts c a <;> simp

/-- C7: computing the negation of a constraint is pure: the operation does
not receive the solver, so the solver passes through the call site entirely
unchanged, with its registration table intact, and the call only produces
the negated constraint value. -/
theorem negation_pure_frame (N : NegatableConstraint (Solver P) α β) (c : α)
    (s : Solver P) :
    (negationCall N c s).2 = s ∧ (negationCall N c s).2.units = s.units ∧
      (negationCall N c s).1 = N.negation c :=
  ⟨rfl, rfl, rfl⟩

/-- C9: for every solver state and every guard literal, `post` and
`implied_by` on the placeholder unit constraint `()` panic immediately at
the call site: they never return normally (neither success nor a recoverable
error) and so never register anything. -/
theorem unit_constraint_fails_fast (s : Solver P) (r : Literal) :
    (unitConstraint P).post () s = Outcome.panic ∧
      (unitConstraint P).implied_by () s r = Outcome.panic :=
  ⟨rfl, rfl⟩

/-- C10: for every solver state and every guard literal, `post` and
`implied_by` on the empty sequence of constraints return success and hand
back the solver state unchanged, registering no propagation unit. -/
theorem vec_empty_noop (I : Constraint σ α) (s : σ) (r : Literal) :
    vecPost I [] s = Outcome.ret s none ∧
      vecImpliedBy I r [] s = Outcome.ret s none :=
  ⟨rfl, rfl⟩

/-- Conflict verdict that rejects exactly the plain unit of propagator `1`. -/
def conflictOnOne : RegisteredUnit Nat → Option ConstraintOperationError :=
  fun u =>
    match u with
    | .plain n => if n == 1 then some .infeasiblePropagator else none
    | .reified _ _ => none

/-- C3: `post` on an ordered sequence posts each element in order (on
overall success the registration table has gained exactly the sequence's
units, in order; if every element registers without conflict, `post`
succeeds); and if some element's posting returns a conflict error, the
sequence's `post` returns that error with the state as the failing element
left it — no later element is posted — and it is the same error that
posting the failing element alone in the starting state returns. -/
theorem vec_post_short_circuit (cs : List P) (s : Solver P) :
    (∀ s₂, vecPost (propagatorConstraint P) cs s = .ret s₂ none →
        s₂.units = s.units ++ cs.map RegisteredUnit.plain) ∧
    ((∀ c, s.rootConflict (.plain c) = none) →
        vecPost (propagatorConstraint P) cs s =
          .ret ⟨s.rootConflict, s.units ++ cs.map RegisteredUnit.plain⟩ none) ∧
    (∀ pre c rest s₁ s₂ e, cs = pre ++ c :: rest →
        vecPost (propagatorConstraint P) pre s = .ret s₁ none →
        propagatorPost c s₁ = .ret s₂ (some e) →
        vecPost (propagatorConstraint P) cs s = .ret s₂ (some e) ∧
          s₂.units = s.units ++ pre.map RegisteredUnit.plain ∧
          propagatorPost c s = .ret s (some e)) := by
  refine ⟨fun s₂ h => (vecPost_ok_state cs s s₂ h).2,
    fun hs => vecPost_all_ok cs s hs, ?_⟩
  intro pre c rest s₁ s₂ e hcs hpre hfail
  subst hcs
  obtain ⟨hrc, hup⟩ := vecPost_ok_state pre s s₁ hpre
  cases hc : s₁.rootConflict (.plain c) with
  | none => simp [propagatorPost, Solver.addPropagator, hc] at hfail
  | some e' =>
    simp only [propagatorPost, Solver.addPropagator, hc, Outcome.ret.injEq,
      Option.some.injEq] at hfail
    obtain ⟨h₁₂, -⟩ := hfail
    subst h₁₂
    have hee : e' = e := by cases e; cases e'; rfl
    rw [← hee]
    have hc' : s.rootConflict (RegisteredUnit.plain c) = some e' := by
      rw [← hrc]; exact hc
    refine ⟨?_, hup, ?_⟩
    · rw [vecPost_append_ok (propagatorConstraint P) pre (c :: rest) s s₁ hpre]
      simp [vecPost, propagatorConstraint_post, propagatorPost,
        Solver.addPropagator, hc]
    · simp [propagatorPost, Solver.addPropagator, hc']

/-- Witness for C3: over a verdict that rejects only propagator `1`, posting
`[0, 1, 2]` posts `0`, fails on `1` with the error that posting `1` alone
returns, and never posts `2`; over the accepting verdict, posting `[5, 7]`
succeeds and registers both units in order. -/
theorem vec_post_short_circuit_witness :
    vecPost (propagatorConstraint Nat) [0] ⟨conflictOnOne, []⟩ =
      .ret ⟨conflictOnOne, [.plain 0]⟩ none ∧
    propagatorPost 1 (⟨conflictOnOne, [.plain 0]⟩ : Solver Nat) =
      .ret ⟨conflictOnOne, [.plain 0]⟩ (some .infeasiblePropagator) ∧
    (vecPost (propagatorConstraint Nat) [0, 1, 2] ⟨conflictOnOne, []⟩ =
        .ret ⟨conflictOnOne, [.plain 0]⟩ (some .infeasiblePropagator) ∧
      (⟨conflictOnOne, [.plain 0]⟩ : Solver Nat).units =
        [RegisteredUnit.plain 0] ∧
      propagatorPost 1 (⟨conflictOnOne, []⟩ : Solver Nat) =
        .ret ⟨conflictOnOne, []⟩ (some .infeasiblePropagator)) ∧
    vecPost (propagatorConstraint Nat) [5, 7] ⟨noConflict Nat, []⟩ =
      .ret ⟨noConflict Nat, [.plain 5, .plain 7]⟩ none :=
  ⟨rfl, rfl,
    (vec_post_short_circuit [0, 1, 2] ⟨conflictOnOne, []⟩).2.2 [0] 1 [2]
      ⟨conflictOnOne, [.plain 0]⟩ ⟨conflictOnOne, [.plain 0]⟩
      ConstraintOperationError.infeasiblePropagator rfl rfl rfl,
    (vec_post_short_circuit [5, 7] ⟨noConflict Nat, []⟩).2.1 (fun _ => rfl)⟩

/-- C4: `implied_by` on an ordered sequence registers each element in order,
each wrapped under the same guard literal (on overall success the
registration table has gained exactly the sequence's reified units, in
order), and stops at the first element whose registration returns a conflict
error, returning that error with no later element registered. -/
theorem vec_implied_by_short_circuit (cs : List P) (s : Solver P) (r : Literal) :
    (∀ s₂, vecImpliedBy (propagatorConstraint P) r cs s = .ret s₂ none →
        s₂.units = s.units ++ cs.map (fun c => RegisteredUnit.reified c r)) ∧
    (∀ pre c rest s₁ s₂ e, cs = pre ++ c :: rest →
        vecImpliedBy (propagatorConstraint P) r pre s = .ret s₁ none →
        propagatorImpliedBy c s₁ r = .ret s₂ (some e) →
        vecImpliedBy (propagatorConstraint P) r cs s = .ret s₂ (some e) ∧
          s₂.units = s.units ++ pre.map (fun c => RegisteredUnit.reified c r)) := by
  refine ⟨fun s₂ h => (vecImpliedBy_ok_state cs r s s₂ h).2, ?_⟩
  intro pre c rest s₁ s₂ e hcs hpre hfail
  subst hcs
  obtain ⟨hrc, hup⟩ := vecImpliedBy_ok_state pre r s s₁ hpre
  cases hc : s₁.rootConflict (.reified c r) with
  | none => simp [propagatorImpliedBy, Solver.addPropagator, hc] at hfail
  | some e' =>
    simp only [propagatorImpliedBy, Solver.addPropagator, hc, Outcome.ret.injEq,
      Option.some.injEq] at hfail
    obtain ⟨h₁₂, -⟩ := hfail
    subst h₁₂
    have hee : e' = e := by cases e; cases e'; rfl
    rw [← hee]
    refine ⟨?_, hup⟩
    rw [vecImpliedBy_append_ok (propagatorConstraint P) r pre (c :: rest) s s₁ hpre]
    simp [vecImpliedBy, propagatorConstraint_implied_by, propagatorImpliedBy,
      Solver.addPropagator, hc]

/-- Conflict verdict that rejects exactly the reified unit of propagator
`1`. -/
def conflictOnReifiedOne : RegisteredUnit Nat → Option ConstraintOperationError :=
  fun u =>
    match u with
    | .plain _ => none
    | .reified n _ => if n == 1 then some .infeasiblePropagator else none

/-- Witness for C4: over a verdict that rejects only the reified unit of
propagator `1`, reifying the sequence `[0, 1, 2]` under guard `⟨4, true⟩`
registers the wrapped `0`, fails on `1` with that error, and never registers
`2`. -/
theorem vec_implied_by_short_circuit_witness :
    vecImpliedBy (propagatorConstraint Nat) ⟨4, true⟩ [0] ⟨conflictOnReifiedOne, []⟩ =
      .ret ⟨conflictOnReifiedOne, [.reified 0 ⟨4, true⟩]⟩ none ∧
    propagatorImpliedBy 1 (⟨conflictOnReifiedOne, [.reified 0 ⟨4, true⟩]⟩ : Solver Nat)
        ⟨4, true⟩ =
      .ret ⟨conflictOnReifiedOne, [.reified 0 ⟨4, true⟩]⟩ (some .infeasiblePropagator) ∧
    (vecImpliedBy (propagatorConstraint Nat) ⟨4, true⟩ [0, 1, 2]
          ⟨conflictOnReifiedOne, []⟩ =
        .ret ⟨conflictOnReifiedOne, [.reified 0 ⟨4, true⟩]⟩
          (some .infeasiblePropagator) ∧
      (⟨conflictOnReifiedOne, [.reified 0 ⟨4, true⟩]⟩ : Solver Nat).units =
        [RegisteredUnit.reified 0 ⟨4, true⟩]) :=
  ⟨rfl, rfl,
    (vec_implied_by_short_circuit [0, 1, 2] ⟨conflictOnReifiedOne, []⟩ ⟨4, true⟩).2
      [0] 1 [2] ⟨conflictOnReifiedOne, [.reified 0 ⟨4, true⟩]⟩
      ⟨conflictOnReifiedOne, [.reified 0 ⟨4, true⟩]⟩
      ConstraintOperationError.infeasiblePropagator rfl rfl rfl⟩

/-- C8: `implied_by` on a propagator-based constraint registers the
constraint wrapped with the guard literal: on success the registration table
gains exactly the one reified unit, the posted relation is
`guard → constraint` conjoined with what was already posted, and every
assignment under which the guard is false is unconstrained by the call. -/
theorem implied_by_half_reification (p : P) (s s₁ : Solver P) (r : Literal)
    (acc : P → Assignment → Bool)
    (h : propagatorImpliedBy p s r = .ret s₁ none) :
    s₁.units = s.units ++ [RegisteredUnit.reified p r] ∧
    (∀ a, Solver.sat acc s₁ a = (Solver.sat acc s a && (!r.holds a || acc p a))) ∧
    (∀ a, r.holds a = false → Solver.sat acc s₁ a = Solver.sat acc s a) := by
  cases hc : s.rootConflict (.reified p r) with
  | some e => simp [propagatorImpliedBy, Solver.addPropagator, hc] at h
  | none =>
    simp only [propagatorImpliedBy, Solver.addPropagator, hc, Outcome.ret.injEq,
      and_true] at h
    subst h
    refine ⟨rfl, ?_, ?_⟩
    · intro a
      simp [Solver.sat, List.all_append, RegisteredUnit.sat]
    · intro a hr
      simp [Solver.sat, List.all_append, RegisteredUnit.sat, hr]

/-- Witness for C8: registering propagator `2` implied by guard `⟨5, true⟩`
in the empty solver registers exactly the one wrapped unit and posts the
half-reified relation. -/
theorem implied_by_half_reification_witness :
    propagatorImpliedBy 2 (⟨noConflict Nat, []⟩ : Solver Nat) ⟨5, true⟩ =
      .ret ⟨noConflict Nat, [.reified 2 ⟨5, true⟩]⟩ none ∧
    ((⟨noConflict Nat, [.reified 2 ⟨5, true⟩]⟩ : Solver Nat).units =
        [RegisteredUnit.reified 2 ⟨5, true⟩] ∧
      (∀ a, Solver.sat (fun n a => a.intVal n == 0)
            ⟨noConflict Nat, [.reified 2 ⟨5, true⟩]⟩ a =
          (Solver.sat (fun n a => a.intVal n == 0) ⟨noConflict Nat, []⟩ a &&
            (!(Literal.holds ⟨5, true⟩ a) || (a.intVal 2 == 0)))) ∧
      (∀ a, Literal.holds ⟨5, true⟩ a = false →
          Solver.sat (fun n a => a.intVal n == 0)
              ⟨noConflict Nat, [.reified 2 ⟨5, true⟩]⟩ a =
            Solver.sat (fun n a => a.intVal n == 0) ⟨noConflict Nat, []⟩ a)) :=
  ⟨rfl, implied_by_half_reification 2 ⟨noConflict Nat, []⟩
      ⟨noConflict Nat, [.reified 2 ⟨5, true⟩]⟩ ⟨5, true⟩
      (fun n a => a.intVal n == 0) rfl⟩

/-- C1: for a propagator-based constraint whose negation satisfies the
exhaustive-complement contract, a successful `reify` registers first the
constraint wrapped under the guard and then the negation wrapped under the
negated guard, in that order, and the resulting posted relation is the
bidirectional reification: the guard holds exactly when the constraint is
accepted. -/
theorem reify_registers_bidirectional (negP : P → P) (acc : P → Assignment → Bool)
    (hcomp : ∀ q a, acc (negP q) a = !(acc q a))
    (c : P) (s s₂ : Solver P) (r : Literal)
    (h : (propagatorNegatable negP).reify c s r = .ret s₂ none) :
    s₂.units = s.units ++
        [RegisteredUnit.reified c r, RegisteredUnit.reified (negP c) r.negate] ∧
    ∀ a, Solver.sat acc s₂ a = (Solver.sat acc s a && (r.holds a == acc c a)) := by
  cases hc₁ : s.rootConflict (.reified c r) with
  | some e =>
    simp [NegatableConstraint.reify, propagatorNegatable,
      propagatorConstraint_implied_by, propagatorImpliedBy,
      Solver.addPropagator, hc₁] at h
  | none =>
    cases hc₂ : s.rootConflict (.reified (negP c) r.negate) with
    | some e =>
      simp [NegatableConstraint.reify, propagatorNegatable,
        propagatorConstraint_implied_by, propagatorImpliedBy,
        Solver.addPropagator, hc₁, hc₂] at h
    | none =>
      simp only [NegatableConstraint.reify, propagatorNegatable,
        propagatorConstraint_implied_by, propagatorImpliedBy,
        Solver.addPropagator, hc₁, hc₂, Outcome.ret.injEq, and_true] at h
      subst h
      refine ⟨by simp, ?_⟩
      intro a
      have hb := reify_halves_eq_iff (Solver.sat acc s a) (r.holds a) (acc c a)
      simp only [Solver.sat, List.all_append, List.all_cons, List.all_nil,
        Bool.and_true, RegisteredUnit.sat, Literal.holds_negate, Bool.not_not,
        hcomp] at hb ⊢
      exact hb

/-- Witness for C1: fully reifying `0 = 1` under guard `⟨0, true⟩` in the
empty solver registers the constraint under the guard, then its negation
under the negated guard, and posts the bidirectional relation. -/
theorem reify_registers_bidirectional_witness :
    (propagatorNegatable EqConstraint.negation).reify (.equalsC 0 1)
        (⟨noConflict EqConstraint, []⟩ : Solver EqConstraint) ⟨0, true⟩ =
      .ret ⟨noConflict EqConstraint,
        [.reified (.equalsC 0 1) ⟨0, true⟩,
          .reified (.notEqualsC 0 1) ⟨0, false⟩]⟩ none ∧
    ((⟨noConflict EqConstraint,
        [.reified (.equalsC 0 1) ⟨0, true⟩,
          .reified (.notEqualsC 0 1) ⟨0, false⟩]⟩ : Solver EqConstraint).units =
      [RegisteredUnit.reified (.equalsC 0 1) ⟨0, true⟩,
        RegisteredUnit.reified (.notEqualsC 0 1) (Literal.negate ⟨0, true⟩)] ∧
      ∀ a, Solver.sat EqConstraint.accepts
            ⟨noConflict EqConstraint,
              [.reified (.equalsC 0 1) ⟨0, true⟩,
                .reified (.notEqualsC 0 1) ⟨0, false⟩]⟩ a =
          (Solver.sat EqConstraint.accepts (⟨noConflict EqConstraint, []⟩ :
              Solver EqConstraint) a &&
            (Literal.holds ⟨0, true⟩ a == EqConstraint.accepts (.equalsC 0 1) a))) :=
  ⟨rfl, reify_registers_bidirectional EqConstraint.negation EqConstraint.accepts
      eqConstraint_complement (.equalsC 0 1) ⟨noConflict EqConstraint, []⟩
      ⟨noConflict EqConstraint,
        [.reified (.equalsC 0 1) ⟨0, true⟩,
          .reified (.notEqualsC 0 1) ⟨0, false⟩]⟩ ⟨0, true⟩ rfl⟩

end Munchkin
